import Mathlib

/-!
Verification of the BML parser in `generate.py`: the `Node` tree, the
indentation-stack scanner of `parse_bml`, the `key=value` tokenizer, and
the query API (`path`, `elements`, `text`).

Strings are modelled as lists of characters (`Str`); the mutable `Node`
graph of the Python code (nodes holding a back-reference to their parent)
is modelled as an arena: a list of nodes addressed by index, each node
holding its parent's index and the indices of its children, exactly the
arena representation the design notes call for.  The parser's current
node `n` is an `Option Nat`: Python's `n` may hold `None` after ascending
past the root, and any attribute access on `None` raises; the model
mirrors that with `PErr.attributeError`.
-/

/-- A Python string, modelled as its list of characters. -/
abbrev Str := List Char

deriving instance DecidableEq for Except

/-- One node of the arena: `parent` is the back-reference (`None` for the
root), `name` and optional scalar `data` as in the Python `Node` class,
`children` the indices of the children in insertion (document) order. -/
structure Node where
  parent : Option Nat
  name : Str
  data : Option Str
  children : List Nat
deriving DecidableEq, Repr

instance : Inhabited Node := ⟨⟨none, [], none, []⟩⟩

/-- Errors `parse_bml` can raise: `synError` models Python's
`SyntaxError(msg)` — constructed from a message alone, its `text` and
`offset` attributes are `None`; `attributeError` models the
`AttributeError` raised by an attribute access on `None`. -/
inductive PErr where
  | synError (msg : String) (text : Option Str) (offset : Option Nat)
  | attributeError
deriving DecidableEq, Repr

/-- Read a node of the arena (out-of-range reads return the default node;
parsing only ever reads live indices). -/
def getN (a : List Node) (i : Nat) : Node := a.getD i default

/-- Python `Node.append(Node(n, name, data))`: create a node under parent `i` and
record it in `i`'s child list; returns the new arena and the new index. -/
def appendChild (a : List Node) (i : Nat) (name : Str) (data : Option Str) :
    List Node × Nat :=
  let idx := a.length
  let a1 := a.set i { getN a i with children := (getN a i).children ++ [idx] }
  (a1 ++ [⟨some i, name, data, []⟩], idx)

/-- Overwrite the data of node `i`. -/
def setData (a : List Node) (i : Nat) (d : Option Str) : List Node :=
  a.set i { getN a i with data := d }

/-- Python `Node.elements(key)`: all children of `i` named `key`, in document
order. -/
def elements (a : List Node) (i : Nat) (key : Str) : List Nat :=
  (getN a i).children.filter (fun j => (getN a j).name == key)

/-- The first child of `i` named `key` (the loop inside `Node.path`). -/
def path1 (a : List Node) (i : Nat) (key : Str) : Option Nat :=
  (getN a i).children.find? (fun j => (getN a j).name == key)

/-- Python `Node.path(key, *keys)`: first child named `key`; with more keys,
recurse into that child (and only that child). -/
def path (a : List Node) (i : Nat) (key : Str) : List Str → Option Nat
  | [] => path1 a i key
  | k :: ks =>
    match path1 a i key with
    | none => none
    | some j => path a j k ks

/-- Python `Node.text()`: the data, or the empty string when data is absent. -/
def text (a : List Node) (i : Nat) : Str :=
  match (getN a i).data with
  | some d => d
  | none => []

/-- The class `[A-Za-z0-9-.]` of the token patterns ('-' and '.' are the two
characters between code points 45 and 46, so both regex readings agree). -/
def isNameChar (c : Char) : Bool :=
  ('A' ≤ c && c ≤ 'Z') || ('a' ≤ c && c ≤ 'z') || ('0' ≤ c && c ≤ '9')
    || c == '-' || c == '.'

/-- A horizontal-whitespace character, the set of `lstrip(' \t')`. -/
def isSpTab (c : Char) : Bool := c == ' ' || c == '\t'

/-- The character set of `rstrip('\r\n')`. -/
def isCRLF (c : Char) : Bool := c == '\r' || c == '\n'

/-- The character set of `strip(" \t\r\n")` used by the blank-line test. -/
def isBlankChar (c : Char) : Bool :=
  c == ' ' || c == '\t' || c == '\r' || c == '\n'

/-- Python's `\s` for a str pattern: every character CPython's
`Py_UNICODE_ISSPACE` accepts — TAB through CR, the ASCII space, the four
information separators U+001C–U+001F, NEL U+0085, NBSP U+00A0, and the
Unicode space separators U+1680, U+2000–U+200A, U+2028, U+2029, U+202F,
U+205F, U+3000 (the set of `str.isspace`). -/
def isPySpace (c : Char) : Bool :=
  ('\x09' ≤ c && c ≤ '\x0D') || c == ' '
    || ('\x1C' ≤ c && c ≤ '\x1F') || c == '\x85' || c == '\xA0'
    || c == '\u1680' || ('\u2000' ≤ c && c ≤ '\u200A')
    || c == '\u2028' || c == '\u2029' || c == '\u202F'
    || c == '\u205F' || c == '\u3000'

/-- A character the first alternative `[^\s"]+` of the value pattern
accepts. -/
def isValueChar (c : Char) : Bool := !isPySpace c && !(c == '"')

/-- Python `line.lstrip(' \t')`. -/
def lstripSpTab (s : Str) : Str := s.dropWhile isSpTab

/-- Python `line.rstrip('\r\n')`. -/
def rstripCRLF (s : Str) : Str := (s.reverse.dropWhile isCRLF).reverse

/-- Python `s.strip(" \t")`, used for a node's direct `: value`. -/
def stripSpTab (s : Str) : Str :=
  ((s.dropWhile isSpTab).reverse.dropWhile isSpTab).reverse

/-- Python `line.strip(" \t\r\n") == ""`: the blank-line filter. -/
def isBlankLine (s : Str) : Bool := s.all isBlankChar

/-- The call `re_eat(r'^([A-Za-z0-9-.]{1,})=', text)`: a maximal nonempty run of
name characters followed by `=`; returns the key and the rest.  (The
greedy run needs no backtracking: shortening it leaves a name character,
never `=`, at the cursor.) -/
def eatKey (s : Str) : Option (Str × Str) :=
  match s.takeWhile isNameChar, s.dropWhile isNameChar with
  | [], _ => none
  | tok, '=' :: r => some (tok, r)
  | _, _ => none

/-- The call `re_eat(r'^([^\s"]+)|^"([^"]*)"', text)` together with the subsequent
`value = match[1]`: a bareword yields `some value`; a double-quoted value
matches via the second alternative, whose content sits in group 2, so
`match[1]` is `None` — the returned value is `none`. -/
def eatValue (s : Str) : Option (Option Str × Str) :=
  match s.takeWhile isValueChar, s.dropWhile isValueChar with
  | tok :: toks, rest => some (some (tok :: toks), rest)
  | [], _ =>
    match s with
    | '"' :: r =>
      match r.dropWhile (fun c => !(c == '"')) with
      | '"' :: r2 => some (none, r2)
      | _ => none
    | _ => none

/-- One `n = n.parent` step: Python raises `AttributeError` when `n` is `None`. -/
def parentOf (a : List Node) (n : Option Nat) : Except PErr (Option Nat) :=
  match n with
  | none => .error PErr.attributeError
  | some i => .ok (getN a i).parent

/-- The `for indent in reversed(indents)` loop of `parse_bml`, checking
each open prefix, innermost first, against the (progressively stripped)
line.  A matched prefix is stripped from the front; a mismatch performs
the hang ascend (once, clearing `hang`), one ordinary ascend, and pops the
stack's current last entry.  Because Python's reversed iterator walks the
original positions from the back while pops shorten the list from the
back, every original entry is visited exactly once, innermost to
outermost, and the `p` pops remove the last `p` entries of the original
list — the model threads a pop count and the caller truncates the stack.
Returns (remaining line, current node, hang, pop count). -/
def indentLoop (a : List Node) :
    List Str → Str → Option Nat → Bool →
      Except PErr (Str × Option Nat × Bool × Nat)
  | [], line, n, hang => .ok (line, n, hang, 0)
  | ind :: rest, line, n, hang =>
    if ind.isPrefixOf line then
      indentLoop a rest (line.drop ind.length) n hang
    else
      match (if hang then parentOf a n else .ok n : Except PErr (Option Nat)) with
      | .error e => .error e
      | .ok n1 =>
        match parentOf a n1 with
        | .error e => .error e
        | .ok n2 =>
          match indentLoop a rest line n2 false with
          | .error e => .error e
          | .ok (line', n', hang', p) => .ok (line', n', hang', p + 1)

/-- Iterated parent steps: `k` successive `n = n.parent` (each raising on `None`, as in
Python); the yardstick against which the indent loop's ascends are
counted. -/
def ascendN (a : List Node) : Option Nat → Nat → Except PErr (Option Nat)
  | n, 0 => .ok n
  | n, k + 1 =>
    match parentOf a n with
    | .error e => .error e
    | .ok n1 => ascendN a n1 k

/-- The `while part != ""` key-value loop of `parse_bml`.  The recursion
is bounded by a fuel argument (each iteration consumes at least the key's
characters, so `part.length` fuel always suffices; `pairsLoop_fuel` below
shows any sufficient fuel gives the same result). -/
def pairsLoop (fuel : Nat) (a : List Node) (i : Nat) (part : Str) :
    Except PErr (List Node) :=
  match part with
  | [] => .ok a
  | c :: cs =>
    match fuel with
    | 0 => .error (PErr.synError "expected pair key" none none)
    | fuel + 1 =>
      match eatKey (c :: cs) with
      | none => .error (PErr.synError "expected pair key" none none)
      | some (key, rest) =>
        match eatValue rest with
        | none => .error (PErr.synError "expected pair value" none none)
        | some (value, rest2) =>
          pairsLoop fuel (appendChild a i key value).1 i (lstripSpTab rest2)

/-- The parser's state between lines: the arena, the current node `n`
(`none` models Python's `None`), the `hang` flag, and the stack of open
indent prefixes. -/
structure PState where
  arena : List Node
  n : Option Nat
  hang : Bool
  indents : List Str
deriving DecidableEq, Repr

/-- The root-only initial state of `parse_bml`. -/
def initState : PState :=
  ⟨[⟨none, "root".toList, none, []⟩], some 0, false, []⟩

/-- The body of `parse_bml`'s `for line in file` loop for one line:
blank-line filter, `rstrip('\r\n')`, the indent loop, opening a new
indent level or closing a hanging node, then block-continuation or a node
line with an optional direct value or key-value pairs. -/
def doLine (st : PState) (rawLine : Str) : Except PErr PState :=
  if isBlankLine rawLine then .ok st
  else
    let line := rstripCRLF rawLine
    match indentLoop st.arena st.indents.reverse line st.n st.hang with
    | .error e => .error e
    | .ok (line1, n1, hang1, p) =>
      let indents1 := st.indents.take (st.indents.length - p)
      let part := lstripSpTab line1
      let step2 : Except PErr (List Str × Option Nat) :=
        if part.length != line1.length then
          .ok (indents1 ++ [line1.take (line1.length - part.length)], n1)
        else if hang1 then
          match parentOf st.arena n1 with
          | .error e => .error e
          | .ok nn => .ok (indents1, nn)
        else .ok (indents1, n1)
      match step2 with
      | .error e => .error e
      | .ok (indents2, n2) =>
        match part with
        | ':' :: tail =>
          match n2 with
          | none => .error PErr.attributeError
          | some i =>
            let d : Option Str :=
              match (getN st.arena i).data with
              | none => some tail
              | some old => some (old ++ '\n' :: tail)
            .ok ⟨setData st.arena i d, n2, false, indents2⟩
        | _ =>
          match part.takeWhile isNameChar, part.dropWhile isNameChar with
          | [], _ => .error (PErr.synError "expected node name" none none)
          | nm :: nms, rest =>
            match n2 with
            | none => .error PErr.attributeError
            | some i =>
              let res := appendChild st.arena i (nm :: nms) none
              match rest with
              | ':' :: tail =>
                .ok ⟨setData res.1 res.2 (some (stripSpTab tail)),
                     some res.2, true, indents2⟩
              | _ =>
                let part2 := lstripSpTab rest
                match pairsLoop part2.length res.1 res.2 part2 with
                | .error e => .error e
                | .ok a2 => .ok ⟨a2, some res.2, true, indents2⟩

/-- The function `parse_bml`: fold the per-line step over the input's lines, starting
from the synthetic root, and return the arena (the tree rooted at index
0). -/
def parse_bml (lines : List Str) : Except PErr (List Node) :=
  match lines.foldlM doLine initState with
  | .error e => .error e
  | .ok st => .ok st.arena

/-- From a parse result: follow `path` from the root and return `text()`
of the node reached; `none` when the parse failed or the path found
nothing (a found node with absent data gives `some ""`). -/
def pathText (r : Except PErr (List Node)) (key : Str) (keys : List Str) :
    Option Str :=
  match r with
  | .error _ => none
  | .ok a =>
    match path a 0 key keys with
    | none => none
    | some j => some (text a j)

/-- From a parse result: follow `path` from the root and return the
node's raw `data`; distinguishes "not found" (`none`) from "found, data
absent" (`some none`). -/
def pathData (r : Except PErr (List Node)) (key : Str) (keys : List Str) :
    Option (Option Str) :=
  match r with
  | .error _ => none
  | .ok a =>
    match path a 0 key keys with
    | none => none
    | some j => some (getN a j).data

/-- From a parse result: `elements(sub)[k].text()` under the root's first
child named `key`. -/
def elementsText (r : Except PErr (List Node)) (key sub : Str) (k : Nat) :
    Option Str :=
  match r with
  | .error _ => none
  | .ok a =>
    match path1 a 0 key with
    | none => none
    | some i => ((elements a i sub).get? k).map (text a)

/-- From a parse result: `len(elements(sub))` under the root's first
child named `key`. -/
def elementsCount (r : Except PErr (List Node)) (key sub : Str) :
    Option Nat :=
  match r with
  | .error _ => none
  | .ok a =>
    match path1 a 0 key with
    | none => none
    | some i => some (elements a i sub).length

/-! ### Character-class facts -/

lemma spTab_cases (c : Char) (h : isSpTab c = true) : c = ' ' ∨ c = '\t' := by
  simpa [isSpTab] using h

lemma nameChar_not_spTab (c : Char) (h : isNameChar c = true) :
    isSpTab c = false := by
  cases hs : isSpTab c with
  | false => rfl
  | true => rcases spTab_cases c hs with rfl | rfl <;> exact absurd h (by decide)

lemma nameChar_ne_colon (c : Char) (h : isNameChar c = true) : c ≠ ':' := by
  rintro rfl; exact absurd h (by decide)

lemma valueChar_ne_space (c : Char) (h : isValueChar c = true) :
    isSpTab c = false := by
  cases hs : isSpTab c with
  | false => rfl
  | true => rcases spTab_cases c hs with rfl | rfl <;> exact absurd h (by decide)

/-! ### Tokenizer length bounds -/

lemma dropWhile_length_le (p : Char → Bool) (l : Str) :
    (List.dropWhile p l).length ≤ l.length :=
  (List.dropWhile_suffix p).length_le

/-- A successful key match decomposes the cursor text as
`key ++ "=" ++ rest` with a nonempty key of name characters. -/
lemma eatKey_eq (s key rest : Str) (h : eatKey s = some (key, rest)) :
    s = key ++ '=' :: rest ∧ key ≠ [] ∧ key = s.takeWhile isNameChar := by
  unfold eatKey at h
  split at h
  · exact absurd h (by simp)
  · rename_i hdw hne
    injection h with h1
    injection h1 with hk hr
    subst hk
    subst hr
    have hs := List.takeWhile_append_dropWhile (p := isNameChar) (l := s)
    rw [hdw] at hs
    exact ⟨hs.symm, hne, rfl⟩
  · exact absurd h (by simp)

lemma eatKey_length (s key rest : Str) (h : eatKey s = some (key, rest)) :
    rest.length + 2 ≤ s.length := by
  obtain ⟨hs, hne, -⟩ := eatKey_eq s key rest h
  rcases List.exists_cons_of_ne_nil hne with ⟨t, ts, rfl⟩
  subst hs
  simp only [List.length_append, List.length_cons]
  omega

lemma eatValue_length (s : Str) (v : Option Str) (rest : Str)
    (h : eatValue s = some (v, rest)) : rest.length < s.length := by
  unfold eatValue at h
  split at h
  · rename_i t ts htw
    injection h with h1
    injection h1 with hv hr
    subst hr
    have hs := List.takeWhile_append_dropWhile (p := isValueChar) (l := s)
    rw [htw] at hs
    have hlen := congrArg List.length hs
    simp at hlen
    omega
  · split at h
    · rename_i s2 r htw0
      split at h
      · rename_i r2 hdw
        injection h with h1
        injection h1 with hv hr
        subst hr
        have hr2 := List.takeWhile_append_dropWhile
          (p := fun c => !(c == '"')) (l := r)
        rw [hdw] at hr2
        have hlen := congrArg List.length hr2
        simp at hlen
        simp only [List.length_cons]
        omega
      · exact absurd h (by simp)
    · exact absurd h (by simp)

/-- The fuel of `pairsLoop` is an artifact of the embedding: any two
sufficient fuels (at least the remainder's length, which `parse_bml`
always supplies) give the same result, because every iteration consumes
at least the key's characters and the `=`. -/
lemma pairsLoop_fuel (f : Nat) :
    ∀ (g : Nat) (a : List Node) (i : Nat) (part : Str),
      part.length ≤ f → part.length ≤ g →
      pairsLoop f a i part = pairsLoop g a i part := by
  induction f with
  | zero =>
    intro g a i part hf hg
    have hnil : part = [] := List.eq_nil_of_length_eq_zero (Nat.le_zero.mp hf)
    subst hnil
    cases g <;> rfl
  | succ f ih =>
    intro g a i part hf hg
    cases part with
    | nil => cases g <;> rfl
    | cons c cs =>
      obtain ⟨g2, rfl⟩ : ∃ g2, g = g2 + 1 :=
        ⟨g - 1, by simp at hg; omega⟩
      rw [pairsLoop]
      conv_rhs => rw [pairsLoop]
      cases hk : eatKey (c :: cs) with
      | none => simp only [hk]
      | some kv =>
        obtain ⟨key, rest⟩ := kv
        simp only [hk]
        cases hv : eatValue rest with
        | none => simp only [hv]
        | some vr =>
          obtain ⟨value, rest2⟩ := vr
          simp only [hv]
          have h1 := eatKey_length _ _ _ hk
          have h2 := eatValue_length _ _ _ hv
          have h3 : (lstripSpTab rest2).length ≤ rest2.length :=
            dropWhile_length_le isSpTab rest2
          have hcs : (c :: cs).length ≤ f + 1 := hf
          have hgs : (c :: cs).length ≤ g2 + 1 := hg
          simp only [List.length_cons] at hcs hgs h1
          exact ih _ _ _ _ (by omega) (by omega)

/-! ### The indent loop on a line that extends the prefixes in the order
they are checked -/

lemma indentLoop_flatten (a : List Node) (l : List Str) (rest : Str)
    (n : Option Nat) (hang : Bool) :
    indentLoop a l (l.flatten ++ rest) n hang = .ok (rest, n, hang, 0) := by
  induction l generalizing rest with
  | nil => simp [indentLoop]
  | cons ind l' ih =>
    have hpre : ind.isPrefixOf (ind ++ (l'.flatten ++ rest)) = true := by
      rw [List.isPrefixOf_iff_prefix]; exact List.prefix_append ind _
    rw [List.flatten_cons, List.append_assoc]
    rw [indentLoop, if_pos hpre, List.drop_left ind _]
    exact ih rest

/-! ### Arena facts: names of existing nodes never change -/

lemma getN_set_name (a : List Node) (i j : Nat) (v : Node)
    (hv : v.name = (getN a i).name) :
    (getN (a.set i v) j).name = (getN a j).name := by
  unfold getN at hv ⊢
  by_cases hij : i = j
  · subst hij
    by_cases hi : i < a.length
    · simp [List.getD_eq_getElem?_getD, List.getElem?_set_self, hi, hv]
    · rw [List.set_eq_of_length_le (by omega)]
  · simp [List.getD_eq_getElem?_getD, List.getElem?_set_ne hij]

lemma getN_setData_name (a : List Node) (i j : Nat) (d : Option Str) :
    (getN (setData a i d) j).name = (getN a j).name :=
  getN_set_name a i j _ rfl

lemma length_setData (a : List Node) (i : Nat) (d : Option Str) :
    (setData a i d).length = a.length := by
  simp [setData]

lemma getN_appendChild_name (a : List Node) (i j : Nat) (nm : Str)
    (dt : Option Str) (hj : j < a.length) :
    (getN (appendChild a i nm dt).1 j).name = (getN a j).name := by
  unfold appendChild
  simp only []
  unfold getN
  rw [List.getD_eq_getElem?_getD,
    List.getElem?_append_left (by simpa using hj),
    ← List.getD_eq_getElem?_getD]
  exact getN_set_name a i j _ rfl

lemma length_appendChild (a : List Node) (i : Nat) (nm : Str)
    (dt : Option Str) : (appendChild a i nm dt).1.length = a.length + 1 := by
  simp [appendChild]

lemma pairsLoop_name0 (f : Nat) :
    ∀ (a : List Node) (i : Nat) (part : Str) (a2 : List Node),
      pairsLoop f a i part = .ok a2 →
      (∀ j < a.length, (getN a2 j).name = (getN a j).name)
      ∧ a.length ≤ a2.length := by
  induction f with
  | zero =>
    intro a i part a2 h
    cases part with
    | nil =>
      rw [pairsLoop] at h
      injection h with h
      subst h
      exact ⟨fun j hj => rfl, le_refl _⟩
    | cons c cs => rw [pairsLoop] at h; simp at h
  | succ f ih =>
    intro a i part a2 h
    cases part with
    | nil =>
      rw [pairsLoop] at h
      injection h with h
      subst h
      exact ⟨fun j hj => rfl, le_refl _⟩
    | cons c cs =>
      rw [pairsLoop] at h
      split at h
      · simp at h
      · rename_i key rest hkey
        split at h
        · simp at h
        · rename_i value rest2 hvalue
          obtain ⟨ihn, ihl⟩ := ih _ _ _ _ h
          have hlen := length_appendChild a i key value
          refine ⟨fun j hj => ?_, by omega⟩
          rw [ihn j (by omega), getN_appendChild_name a i j key value hj]

lemma doLine_name0 (st : PState) (line : Str) (st' : PState)
    (h : doLine st line = .ok st') (h0 : 0 < st.arena.length) :
    (getN st'.arena 0).name = (getN st.arena 0).name
    ∧ 0 < st'.arena.length := by
  by_cases hb : isBlankLine line = true
  · rw [doLine, if_pos hb] at h
    injection h with h
    subst h
    exact ⟨rfl, h0⟩
  · have hb0 : isBlankLine line = false := by
      revert hb; cases isBlankLine line <;> simp
    simp only [doLine, hb0, Bool.false_eq_true, if_false] at h
    split at h
    · simp at h
    · rename_i line1 n1 hang1 p hIL
      split at h
      · simp at h
      · rename_i indents2 n2 hstep
        cases n2 with
        | none =>
          split at h
          · simp at h
          · split at h
            · simp at h
            · simp at h
        | some i =>
          split at h
          · -- block-continuation: data of the current node is rewritten
            injection h with h
            subst h
            exact ⟨getN_setData_name _ _ _ _,
              by rw [length_setData]; exact h0⟩
          · -- node line
            split at h
            · simp at h
            · split at h
              · -- impossible arm: the current node is known present
                simp at h
              · split at h
                · -- direct value after the name
                  injection h with h
                  subst h
                  constructor
                  · rw [getN_setData_name,
                      getN_appendChild_name _ _ _ _ _ h0]
                  · rw [length_setData, length_appendChild]; omega
                · -- key-value pairs
                  split at h
                  · simp at h
                  · rename_i a2 hPL
                    injection h with h
                    subst h
                    obtain ⟨ihn, ihl⟩ := pairsLoop_name0 _ _ _ _ _ hPL
                    rw [length_appendChild] at ihl
                    constructor
                    · rw [ihn 0 (by rw [length_appendChild]; omega),
                        getN_appendChild_name _ _ _ _ _ h0]
                    · show 0 < a2.length
                      omega

lemma foldl_name0 (lines : List Str) :
    ∀ (st stF : PState), List.foldlM doLine st lines = .ok stF →
      0 < st.arena.length →
      (getN stF.arena 0).name = (getN st.arena 0).name
      ∧ 0 < stF.arena.length := by
  induction lines with
  | nil =>
    intro st stF h h0
    rw [List.foldlM_nil] at h
    injection h with h
    subst h
    exact ⟨rfl, h0⟩
  | cons x xs ih =>
    intro st stF h h0
    rw [List.foldlM_cons] at h
    cases hx : doLine st x with
    | error e =>
      rw [hx] at h
      simp only [bind, Except.bind] at h
      exact absurd h (by simp)
    | ok st1 =>
      rw [hx] at h
      simp only [bind, Except.bind] at h
      obtain ⟨hn1, hl1⟩ := doLine_name0 st x st1 hx h0
      obtain ⟨hn2, hl2⟩ := ih st1 stF h hl1
      exact ⟨hn2.trans hn1, hl2⟩

lemma takeWhile_append_of (p : Char → Bool) (xs ys : Str) (y : Char)
    (hxs : ∀ c ∈ xs, p c = true) (hy : p y = false) :
    List.takeWhile p (xs ++ y :: ys) = xs
    ∧ List.dropWhile p (xs ++ y :: ys) = y :: ys := by
  induction xs with
  | nil => simp [List.takeWhile_cons, List.dropWhile_cons, hy]
  | cons x xs ih =>
    have hx := hxs x (by simp)
    have ih2 := ih (fun c hc => hxs c (by simp [hc]))
    simp [List.takeWhile_cons, List.dropWhile_cons, hx, ih2.1, ih2.2]

/-! ### The shape of every error the parser can raise -/

/-- Every `synError` the parser constructs has one of the three cause
messages and carries no line text and no offset. -/
def errShape (e : PErr) : Prop :=
  ∀ (m : String) (t : Option Str) (o : Option Nat),
    e = PErr.synError m t o →
    (m = "expected node name" ∨ m = "expected pair key"
      ∨ m = "expected pair value")
    ∧ t = none ∧ o = none

lemma errShape_name : errShape (PErr.synError "expected node name" none none) := by
  intro m t o he
  injection he with h1 h2 h3
  subst h1; subst h2; subst h3
  exact ⟨Or.inl rfl, rfl, rfl⟩

lemma errShape_key : errShape (PErr.synError "expected pair key" none none) := by
  intro m t o he
  injection he with h1 h2 h3
  subst h1; subst h2; subst h3
  exact ⟨Or.inr (Or.inl rfl), rfl, rfl⟩

lemma errShape_value : errShape (PErr.synError "expected pair value" none none) := by
  intro m t o he
  injection he with h1 h2 h3
  subst h1; subst h2; subst h3
  exact ⟨Or.inr (Or.inr rfl), rfl, rfl⟩

lemma errShape_attr : errShape PErr.attributeError := by
  intro m t o he
  exact absurd he (by simp)

lemma parentOf_error (a : List Node) (n : Option Nat) (e : PErr)
    (h : parentOf a n = .error e) : e = PErr.attributeError := by
  cases n with
  | none => rw [parentOf] at h; injection h with h; exact h.symm
  | some i => rw [parentOf] at h; exact absurd h (by simp)

lemma errShape_pairsLoop (f : Nat) :
    ∀ (a : List Node) (i : Nat) (part : Str) (e : PErr),
      pairsLoop f a i part = .error e → errShape e := by
  induction f with
  | zero =>
    intro a i part e h
    cases part with
    | nil => rw [pairsLoop] at h; exact absurd h (by simp)
    | cons c cs =>
      rw [pairsLoop] at h
      injection h with h
      subst h
      exact errShape_key
  | succ f ih =>
    intro a i part e h
    cases part with
    | nil => rw [pairsLoop] at h; exact absurd h (by simp)
    | cons c cs =>
      rw [pairsLoop] at h
      split at h
      · injection h with h; subst h; exact errShape_key
      · split at h
        · injection h with h; subst h; exact errShape_value
        · exact ih _ _ _ _ h

lemma errShape_indentLoop (a : List Node) (l : List Str) :
    ∀ (line : Str) (n : Option Nat) (hang : Bool) (e : PErr),
      indentLoop a l line n hang = .error e → errShape e := by
  induction l with
  | nil => intro line n hang e h; rw [indentLoop] at h; exact absurd h (by simp)
  | cons ind l2 ih =>
    intro line n hang e h
    rw [indentLoop] at h
    by_cases hpre : ind.isPrefixOf line = true
    · rw [if_pos hpre] at h
      exact ih _ _ _ _ h
    · rw [if_neg hpre] at h
      split at h
      · rename_i e1 he1
        injection h with h
        subst h
        cases hang with
        | true =>
          simp only [if_pos] at he1
          rw [parentOf_error _ _ _ he1]
          exact errShape_attr
        | false => simp at he1
      · split at h
        · rename_i he2
          injection h with h
          subst h
          rw [parentOf_error _ _ _ he2]
          exact errShape_attr
        · split at h
          · injection h with h
            subst h
            exact ih _ _ _ _ (by assumption)
          · exact absurd h (by simp)

lemma errShape_doLine (st : PState) (line : Str) (e : PErr)
    (h : doLine st line = .error e) : errShape e := by
  by_cases hb : isBlankLine line = true
  · rw [doLine, if_pos hb] at h
    exact absurd h (by simp)
  · have hb0 : isBlankLine line = false := by
      revert hb; cases isBlankLine line <;> simp
    simp only [doLine, hb0, Bool.false_eq_true, if_false] at h
    split at h
    · rename_i e1 hIL
      injection h with h
      subst h
      exact errShape_indentLoop _ _ _ _ _ _ hIL
    · rename_i line1 n1 hang1 p hIL
      split at h
      · rename_i e2 hstep
        injection h with h
        subst h
        split at hstep
        · exact absurd hstep (by simp)
        · split at hstep
          · split at hstep
            · rename_i e3 he3
              injection hstep with hstep
              subst hstep
              rw [parentOf_error _ _ _ he3]
              exact errShape_attr
            · exact absurd hstep (by simp)
          · exact absurd hstep (by simp)
      · rename_i indents2 n2 hstep
        cases n2 with
        | none =>
          split at h
          · injection h with h
            subst h
            exact errShape_attr
          · split at h
            · injection h with h
              subst h
              exact errShape_name
            · injection h with h
              subst h
              exact errShape_attr
        | some i =>
          split at h
          · exact absurd h (by simp)
          · split at h
            · injection h with h
              subst h
              exact errShape_name
            · split at h
              · injection h with h
                subst h
                exact errShape_attr
              · split at h
                · exact absurd h (by simp)
                · split at h
                  · rename_i e4 hPL
                    injection h with h
                    subst h
                    exact errShape_pairsLoop _ _ _ _ _ hPL
                  · exact absurd h (by simp)

lemma errShape_foldl (lines : List Str) :
    ∀ (st : PState) (e : PErr),
      List.foldlM doLine st lines = .error e → errShape e := by
  induction lines with
  | nil =>
    intro st e h
    rw [List.foldlM_nil] at h
    exact absurd h (by simp [pure, Except.pure])
  | cons x xs ih =>
    intro st e h
    rw [List.foldlM_cons] at h
    cases hx : doLine st x with
    | error e1 =>
      rw [hx] at h
      simp only [bind, Except.bind] at h
      injection h with h
      subst h
      exact errShape_doLine _ _ _ hx
    | ok st1 =>
      rw [hx] at h
      simp only [bind, Except.bind] at h
      exact ih _ _ h

/-- On a quoted value the first regex alternative fails at the opening
`"` and the second consumes through the closing `"`; group 1 — what the
code stores — is `None`. -/
lemma eatValue_quoted (inner rest : Str)
    (h : ∀ c ∈ inner, (c == '"') = false) :
    eatValue ('"' :: (inner ++ '"' :: rest)) = some (none, rest) := by
  have htw : List.takeWhile isValueChar ('"' :: (inner ++ '"' :: rest))
      = [] := by
    simp [List.takeWhile_cons, (by decide : isValueChar '"' = false)]
  have hparts := takeWhile_append_of (fun c => !(c == '"')) inner rest '"'
    (fun c hc => by simp [h c hc]) (by decide)
  unfold eatValue
  simp only [htw, hparts.2]

/-! ### Claim theorems on concrete documents -/

/-- C1 (code bug): on the line `node label="two words"` the value regex
matches the quoted alternative, whose characters are captured in group 2,
but the code reads `match[1]`, which is `None`; the child `label` is
created with absent data and `text()` returns `""`, not `"two words"`. -/
theorem quoted_value_dropped_bug :
    pathData (parse_bml ["node label=\"two words\"".toList])
      "node".toList ["label".toList] = some none
    ∧ elementsText (parse_bml ["node label=\"two words\"".toList])
      "node".toList "label".toList 0 = some []
    ∧ elementsText (parse_bml ["node label=\"two words\"".toList])
      "node".toList "label".toList 0 ≠ some "two words".toList := by
  refine ⟨by decide, by decide, by decide⟩

/-- C2 (counterexample): after `a`, `<TAB>b`, `<TAB><SP><SP>c`, the line
`<TAB><SP><SP>d` whose leading whitespace extends the concatenation
`"\t" ++ "  "` of the open prefixes is *not* resolved as a sibling of
`c`: the loop checks the innermost prefix `"  "` against the unstripped
line, fails, pops two levels (hang plus one), and `d` ends up a child of
`a`. -/
theorem mixed_indent_counterexample :
    pathData (parse_bml ["a".toList, "\tb".toList, "\t  c".toList,
      "\t  d".toList]) "a".toList ["b".toList, "d".toList] = none
    ∧ pathData (parse_bml ["a".toList, "\tb".toList, "\t  c".toList,
      "\t  d".toList]) "a".toList ["d".toList] = some none
    ∧ pathData (parse_bml ["a".toList, "\tb".toList, "\t  c".toList,
      "\t  d".toList]) "a".toList ["b".toList, "c".toList] = some none := by
  refine ⟨by decide, by decide, by decide⟩

/-- C2 (amended): the indent loop checks the open prefixes innermost
first against the still-unstripped line, so a line matches without any
pop exactly when its leading whitespace extends the concatenation of the
open prefixes in *innermost-to-outermost* order (with uniform
indentation the two orders coincide); such a line pops nothing and
leaves the current node and hang flag untouched, and a node line shaped
this way is resolved to the innermost open level: after `a`, `<TAB>b`,
`<TAB><SP><SP>c`, the line `<SP><SP><TAB>d` becomes a sibling of `c`
under `b`, with no ascend past `b`. -/
theorem indent_extension_innermost_first :
    (∀ (a : List Node) (l : List Str) (rest : Str) (n : Option Nat)
      (hang : Bool),
      indentLoop a l (l.flatten ++ rest) n hang = .ok (rest, n, hang, 0))
    ∧ pathData (parse_bml ["a".toList, "\tb".toList, "\t  c".toList,
      "  \td".toList]) "a".toList ["b".toList, "d".toList] = some none
    ∧ pathData (parse_bml ["a".toList, "\tb".toList, "\t  c".toList,
      "  \td".toList]) "a".toList ["b".toList, "c".toList] = some none := by
  exact ⟨indentLoop_flatten, by decide, by decide⟩

/-- C5: when the indent loop pops `p > 0` levels for a line, the current
node ascends once per popped level plus exactly one extra ascend (for
the first pop) when `hang` was set on entry, and the hang flag is
cleared; with no pop the node and flag are untouched.  Pops after the
first never add an extra ascend: the total is `p + 1` with `hang`, never
more. -/
theorem ascend_per_pop (a : List Node) (l : List Str) (line line' : Str)
    (n n' : Option Nat) (hang hang' : Bool) (p : Nat)
    (h : indentLoop a l line n hang = .ok (line', n', hang', p)) :
    ascendN a n (if hang = true ∧ 0 < p then p + 1 else p) = .ok n'
    ∧ hang' = (if 0 < p then false else hang) := by
  induction l generalizing line n hang p with
  | nil =>
    rw [indentLoop] at h
    injection h with h1
    injection h1 with h2 h3
    injection h3 with h4 h5
    injection h5 with h6 h7
    subst h4
    subst h6
    subst h7
    simp [ascendN]
  | cons ind l' ih =>
    rw [indentLoop] at h
    by_cases hpre : ind.isPrefixOf (line) = true
    · rw [if_pos hpre] at h
      exact ih _ _ _ _ h
    · rw [if_neg hpre] at h
      split at h
      · simp at h
      · rename_i n1 hn1
        split at h
        · simp at h
        · rename_i n2 hn2
          split at h
          · simp at h
          · rename_i l2 n2' h2 p2 hrec
            injection h with h1
            injection h1 with ha hb
            injection hb with hc hd
            injection hd with he hf
            subst ha; subst hc; subst he; subst hf
            obtain ⟨ih1, ih2⟩ := ih _ _ _ _ hrec
            simp only [Bool.false_eq_true, false_and, if_false] at ih1
            simp only [ite_self] at ih2
            cases hang with
            | true =>
              simp only [if_pos] at hn1
              constructor
              · rw [if_pos ⟨rfl, Nat.succ_pos p2⟩]
                show ascendN a n (p2 + 1 + 1) = .ok n2'
                rw [ascendN, hn1]
                show ascendN a n1 (p2 + 1) = .ok n2'
                rw [ascendN, hn2]
                exact ih1
              · rw [ih2, if_pos (Nat.succ_pos p2)]
            | false =>
              simp only [Bool.false_eq_true, if_false] at hn1
              injection hn1 with hn1
              subst hn1
              constructor
              · rw [if_neg (by simp)]
                rw [ascendN, hn2]
                exact ih1
              · rw [ih2, if_pos (Nat.succ_pos p2)]

/-- Witness for C5: one open tab level, a line that matches no prefix,
`hang` set: the loop pops once and the node ascends twice (hang plus
pop), clearing the flag. -/
theorem ascend_per_pop_witness :
    ascendN [⟨none, "root".toList, none, [1]⟩,
        ⟨some 0, "c".toList, none, []⟩] (some 1)
        (if true = true ∧ 0 < 1 then 1 + 1 else 1) = .ok none
    ∧ false = (if 0 < 1 then false else true) :=
  ascend_per_pop
    [⟨none, "root".toList, none, [1]⟩, ⟨some 0, "c".toList, none, []⟩]
    [['\t']] "x".toList "x".toList (some 1) none true false 1 (by decide)

/-- C3 (counterexample): on the document whose only line is `:x`, the
block-continuation branch runs while the current node is the synthetic
root, so the returned root carries data `"x"` — not absent data as the
claim requires of every input. -/
theorem root_data_counterexample :
    parse_bml [":x".toList]
      = .ok [⟨none, "root".toList, some "x".toList, []⟩]
    ∧ (getN [(⟨none, "root".toList, some "x".toList, []⟩ : Node)] 0).data
      ≠ none := by
  refine ⟨by decide, by decide⟩

/-- C4 (counterexample): `memory size=` (nothing after the `=`) raises
the pair-value syntax error, but the error is built from the message
alone: it carries no line text and no column — both attributes are
`None`, never the offending line with the column after the `=`. -/
theorem pair_value_error_counterexample :
    parse_bml ["memory size=".toList]
      = .error (PErr.synError "expected pair value" none none)
    ∧ ¬ (∃ col : Nat, parse_bml ["memory size=".toList]
      = .error (PErr.synError "expected pair value"
          (some "memory size=".toList) (some col))) := by
  constructor
  · decide
  · rintro ⟨col, hc⟩
    rw [show parse_bml ["memory size=".toList]
      = .error (PErr.synError "expected pair value" none none) by decide] at hc
    simp at hc

/-- C6: two consecutive node lines at equal indentation are siblings.
If the previous line created node `i` (`hang` still set, `i`'s parent is
`par`) and the next line's whitespace strips to exactly the open
prefixes (no pop, no new level) with remainder a bare node name, then
the hanging node is closed and the new node is appended under `par`,
the same parent as `i` — neither nested in the other. -/
theorem equal_indent_siblings (st : PState) (line rest : Str) (i par : Nat)
    (hb : isBlankLine line = false)
    (hr : rstripCRLF line = (st.indents.reverse).flatten ++ rest)
    (hrest : rest.takeWhile isNameChar = rest)
    (hne : rest ≠ [])
    (hh : st.hang = true)
    (hn : st.n = some i)
    (hp : (getN st.arena i).parent = some par) :
    doLine st line
      = .ok ⟨(appendChild st.arena par rest none).1,
             some st.arena.length, true, st.indents⟩ := by
  have hall : ∀ x ∈ rest, isNameChar x = true :=
    (List.takeWhile_eq_self_iff).mp hrest
  rcases List.exists_cons_of_ne_nil hne with ⟨c, cs, rfl⟩
  have hcname : isNameChar c = true := hall c (by simp)
  have hdrop : List.dropWhile isNameChar (c :: cs) = [] :=
    (List.dropWhile_eq_nil_iff).mpr hall
  have hlstrip : lstripSpTab (c :: cs) = c :: cs := by
    simp [lstripSpTab, List.dropWhile_cons, nameChar_not_spTab c hcname]
  rw [doLine]
  simp only [hb, Bool.false_eq_true, if_false, hr, hn, hh]
  rw [indentLoop_flatten]
  simp only [Nat.sub_zero, List.take_length, hlstrip, bne_self_eq_false,
    Bool.false_eq_true, if_false, if_pos, parentOf, hp]
  split
  · rename_i tail heq
    rw [List.cons.injEq] at heq
    exact absurd heq.1 (nameChar_ne_colon c hcname)
  · simp only [hrest, hdrop, lstripSpTab, List.dropWhile_nil, pairsLoop,
      appendChild]

/-- C7: a line whose remainder after indent resolution starts with `:`
creates no node (`setData` keeps the arena's length) and appends the
text after the `:` to the current node's data — setting it on first
occurrence, joining with an embedded newline afterwards.  The first
clause covers a block line at the open nesting level (no hang), the
second a block line that opens a new indent level `ws` under the
just-created node (the spec's `note` example). -/
theorem block_continuation_appends (st : PState) (line tail ws : Str)
    (i : Nat)
    (hb : isBlankLine line = false)
    (hn : st.n = some i) :
    (rstripCRLF line = (st.indents.reverse).flatten ++ ':' :: tail →
      st.hang = false →
      doLine st line
        = .ok ⟨setData st.arena i
            (match (getN st.arena i).data with
             | none => some tail
             | some old => some (old ++ '\n' :: tail)),
            some i, false, st.indents⟩)
    ∧ (rstripCRLF line
        = (st.indents.reverse).flatten ++ (ws ++ ':' :: tail) →
      ws ≠ [] → (∀ c ∈ ws, isSpTab c = true) →
      doLine st line
        = .ok ⟨setData st.arena i
            (match (getN st.arena i).data with
             | none => some tail
             | some old => some (old ++ '\n' :: tail)),
            some i, false, st.indents ++ [ws]⟩)
    ∧ (∀ d, (setData st.arena i d).length = st.arena.length) := by
  refine ⟨?_, ?_, fun d => length_setData st.arena i d⟩
  · intro hr hh
    rw [doLine]
    simp only [hb, Bool.false_eq_true, if_false, hr, hn, hh]
    rw [indentLoop_flatten]
    have hlstrip : lstripSpTab (':' :: tail) = ':' :: tail := by
      simp [lstripSpTab, List.dropWhile_cons,
        (by decide : isSpTab ':' = false)]
    simp only [Nat.sub_zero, List.take_length, hlstrip, bne_self_eq_false,
      Bool.false_eq_true, if_false]
  · intro hr hws hall
    rw [doLine]
    simp only [hb, Bool.false_eq_true, if_false, hr, hn]
    rw [indentLoop_flatten]
    have hparts := takeWhile_append_of isSpTab ws tail ':' hall (by decide)
    have hlstrip : lstripSpTab (ws ++ ':' :: tail) = ':' :: tail :=
      hparts.2
    have hlen : (List.length (':' :: tail)
        != List.length (ws ++ ':' :: tail)) = true := by
      rcases List.exists_cons_of_ne_nil hws with ⟨w, ws2, rfl⟩
      simp [bne]
      omega
    have htake : List.take
        (List.length (ws ++ ':' :: tail) - List.length (':' :: tail))
        (ws ++ ':' :: tail) = ws := by
      have hl : List.length (ws ++ ':' :: tail) - List.length (':' :: tail)
          = ws.length := by simp
      rw [hl, List.take_left ws _]
    simp only [Nat.sub_zero, List.take_length, hlstrip, hlen, if_true,
      htake]

/-- C8 (amended): on a node line without a direct `:` value, the
key-value loop consumes one `key=value` pair at a time, appending for
each, in left-to-right order, a child named by the key, continuing on
the rest of the line past the separating horizontal whitespace until
the remainder is empty.  A bareword value becomes the child's scalar
data; a double-quoted value, however, leaves the child's data absent —
`value = match[1]` reads the dead capture group, the C1 bug — so only
bareword pairs carry their value as scalar data. -/
theorem pair_tokenize_appends (f : Nat) (a : List Node) (i : Nat)
    (key val inner rest : Str)
    (hkey : ∀ c ∈ key, isNameChar c = true) (hk0 : key ≠ [])
    (hval : ∀ c ∈ val, isValueChar c = true) (hv0 : val ≠ [])
    (hq : ∀ c ∈ inner, (c == '"') = false) :
    (pairsLoop (f + 1) a i (key ++ '=' :: (val ++ ' ' :: rest))
      = pairsLoop f (appendChild a i key (some val)).1 i (lstripSpTab rest))
    ∧ (pairsLoop (f + 1) a i (key ++ '=' :: val)
      = .ok (appendChild a i key (some val)).1)
    ∧ (pairsLoop (f + 1) a i
        (key ++ '=' :: '"' :: (inner ++ '"' :: ' ' :: rest))
      = pairsLoop f (appendChild a i key none).1 i (lstripSpTab rest))
    ∧ (pairsLoop (f + 1) a i (key ++ '=' :: '"' :: (inner ++ ['"']))
      = .ok (appendChild a i key none).1) := by
  obtain ⟨k0, ks, rfl⟩ := List.exists_cons_of_ne_nil hk0
  obtain ⟨v0, vs, rfl⟩ := List.exists_cons_of_ne_nil hv0
  have hvtake : List.takeWhile isValueChar (v0 :: vs) = v0 :: vs :=
    (List.takeWhile_eq_self_iff).mpr hval
  have hvdrop : List.dropWhile isValueChar (v0 :: vs) = [] :=
    (List.dropWhile_eq_nil_iff).mpr hval
  have hsp : lstripSpTab (' ' :: rest) = lstripSpTab rest := by
    simp [lstripSpTab, List.dropWhile_cons, (by decide : isSpTab ' ' = true)]
  refine ⟨?_, ?_, ?_, ?_⟩
  · have h1 := takeWhile_append_of isNameChar (k0 :: ks)
      ((v0 :: vs) ++ ' ' :: rest) '=' hkey (by decide)
    have heatKey1 : eatKey ((k0 :: ks) ++ '=' :: ((v0 :: vs) ++ ' ' :: rest))
        = some (k0 :: ks, (v0 :: vs) ++ ' ' :: rest) := by
      unfold eatKey
      rw [h1.1, h1.2]
      rfl
    have h2 := takeWhile_append_of isValueChar (v0 :: vs) rest ' '
      hval (by decide)
    have heatValue1 : eatValue ((v0 :: vs) ++ ' ' :: rest)
        = some (some (v0 :: vs), ' ' :: rest) := by
      unfold eatValue
      rw [h2.1, h2.2]
    simp only [List.cons_append] at heatKey1 heatValue1 ⊢
    simp only [pairsLoop, heatKey1, heatValue1, hsp]
  · have h1 := takeWhile_append_of isNameChar (k0 :: ks) (v0 :: vs) '='
      hkey (by decide)
    have heatKey2 : eatKey ((k0 :: ks) ++ '=' :: (v0 :: vs))
        = some (k0 :: ks, v0 :: vs) := by
      unfold eatKey
      rw [h1.1, h1.2]
      rfl
    have heatValue2 : eatValue (v0 :: vs) = some (some (v0 :: vs), []) := by
      unfold eatValue
      rw [hvtake, hvdrop]
    simp only [List.cons_append] at heatKey2 heatValue2 ⊢
    simp only [pairsLoop, heatKey2, heatValue2, lstripSpTab,
      List.dropWhile_nil]
  · have h1 := takeWhile_append_of isNameChar (k0 :: ks)
      ('"' :: (inner ++ '"' :: ' ' :: rest)) '=' hkey (by decide)
    have heatKey3 : eatKey
        ((k0 :: ks) ++ '=' :: '"' :: (inner ++ '"' :: ' ' :: rest))
        = some (k0 :: ks, '"' :: (inner ++ '"' :: ' ' :: rest)) := by
      unfold eatKey
      rw [h1.1, h1.2]
      rfl
    have heatValue3 : eatValue ('"' :: (inner ++ '"' :: ' ' :: rest))
        = some (none, ' ' :: rest) := eatValue_quoted inner (' ' :: rest) hq
    simp only [List.cons_append] at heatKey3 heatValue3 ⊢
    simp only [pairsLoop, heatKey3, heatValue3, hsp]
  · have h1 := takeWhile_append_of isNameChar (k0 :: ks)
      ('"' :: (inner ++ ['"'])) '=' hkey (by decide)
    have heatKey4 : eatKey ((k0 :: ks) ++ '=' :: '"' :: (inner ++ ['"']))
        = some (k0 :: ks, '"' :: (inner ++ ['"'])) := by
      unfold eatKey
      rw [h1.1, h1.2]
      rfl
    have heatValue4 : eatValue ('"' :: (inner ++ ['"']))
        = some (none, []) := eatValue_quoted inner [] hq
    simp only [List.cons_append] at heatKey4 heatValue4 ⊢
    simp only [pairsLoop, heatKey4, heatValue4, lstripSpTab,
      List.dropWhile_nil]

/-- C8 (counterexample): a pair whose value is double-quoted refutes
the original claim — on `memory label="a b"` the child `label` is
appended with absent data (`value = match[1]` is `None` for the quoted
alternative), so its `text()` is `""`, not the scalar value `a b`. -/
theorem pair_quoted_value_counterexample :
    pathData (parse_bml ["memory label=\"a b\"".toList])
      "memory".toList ["label".toList] = some none
    ∧ elementsText (parse_bml ["memory label=\"a b\"".toList])
      "memory".toList "label".toList 0 = some []
    ∧ elementsText (parse_bml ["memory label=\"a b\"".toList])
      "memory".toList "label".toList 0 ≠ some "a b".toList := by
  refine ⟨by decide, by decide, by decide⟩

/-- C9: the four-line nesting document yields
`path("name").text() == "Example"` and
`path("board").path("memory").path("type").text() == "ROM"` from the
`game` node. -/
theorem nesting_example_paths :
    pathText (parse_bml ["game".toList, "  name: Example".toList,
      "  board".toList, "    memory type=ROM size=8000".toList])
      "game".toList ["name".toList] = some "Example".toList
    ∧ pathText (parse_bml ["game".toList, "  name: Example".toList,
      "  board".toList, "    memory type=ROM size=8000".toList])
      "game".toList ["board".toList, "memory".toList, "type".toList]
      = some "ROM".toList := by
  refine ⟨by decide, by decide⟩

/-- C10: a node line `name:` with nothing (or only horizontal
whitespace) after the colon stores the *present* empty string as data, so
`text()` is `""`; a block line `:x` indented under it appends to that
empty string, leaving data `"\nx"`, which begins with a newline. -/
theorem empty_direct_value_state :
    pathData (parse_bml ["name:".toList]) "name".toList [] = some (some [])
    ∧ pathText (parse_bml ["name:".toList]) "name".toList [] = some []
    ∧ pathData (parse_bml ["name:  ".toList]) "name".toList []
      = some (some [])
    ∧ pathData (parse_bml ["name:".toList, "  :x".toList]) "name".toList []
      = some (some "\nx".toList) := by
  refine ⟨by decide, by decide, by decide, by decide⟩

/-- Witness for C6: after `x` and a hanging `<TAB>board`, a second
`<TAB>board` is appended under `x` — the two `board` nodes are siblings,
confirmed end to end on the three-line document. -/
theorem equal_indent_siblings_witness :
    doLine ⟨[⟨none, "root".toList, none, [1]⟩,
        ⟨some 0, "x".toList, none, [2]⟩,
        ⟨some 1, "board".toList, none, []⟩], some 2, true, ["\t".toList]⟩
        "\tboard".toList
      = .ok ⟨(appendChild [⟨none, "root".toList, none, [1]⟩,
          ⟨some 0, "x".toList, none, [2]⟩,
          ⟨some 1, "board".toList, none, []⟩] 1 "board".toList none).1,
          some 3, true, ["\t".toList]⟩
    ∧ elementsCount (parse_bml ["x".toList, "\tboard".toList,
        "\tboard".toList]) "x".toList "board".toList = some 2
    ∧ pathData (parse_bml ["x".toList, "\tboard".toList, "\tboard".toList])
        "x".toList ["board".toList, "board".toList] = none :=
  ⟨equal_indent_siblings ⟨[⟨none, "root".toList, none, [1]⟩,
      ⟨some 0, "x".toList, none, [2]⟩,
      ⟨some 1, "board".toList, none, []⟩], some 2, true, ["\t".toList]⟩
      "\tboard".toList "board".toList 2 1
      (by decide) (by decide) (by decide) (by decide) rfl rfl (by decide),
   by decide, by decide⟩

/-- Witness for C7: a second block line under `note` (data already
`"line one"`) appends with a newline, creating no node; end to end the
spec's three-line document yields
`path("note").text() == "line one\nline two"`. -/
theorem block_continuation_appends_witness :
    doLine ⟨[⟨none, "root".toList, none, [1]⟩,
        ⟨some 0, "note".toList, some "line one".toList, []⟩],
        some 1, false, ["  ".toList]⟩ "  :line two".toList
      = .ok ⟨setData [⟨none, "root".toList, none, [1]⟩,
          ⟨some 0, "note".toList, some "line one".toList, []⟩] 1
          (some "line one\nline two".toList), some 1, false, ["  ".toList]⟩
    ∧ pathText (parse_bml ["note".toList, "  :line one".toList,
        "  :line two".toList]) "note".toList []
      = some "line one\nline two".toList :=
  ⟨(block_continuation_appends ⟨[⟨none, "root".toList, none, [1]⟩,
      ⟨some 0, "note".toList, some "line one".toList, []⟩],
      some 1, false, ["  ".toList]⟩ "  :line two".toList "line two".toList
      [] 1 (by decide) rfl).1 (by decide) rfl,
   by decide⟩

/-- Witness for C8: under `memory`, the bareword pair `type=ROM` is
appended with scalar data and the loop continues past the blank; a
quoted pair `type="a b"` is appended with absent data.  End to end,
`memory type=ROM size=0x20000` yields
`elements("type")[0].text() == "ROM"` and
`elements("size")[0].text() == "0x20000"`, while
`memory label="a b" size=80` yields a `label` child with absent data
and still parses the following `size=80` pair. -/
theorem pair_tokenize_appends_witness :
    ((pairsLoop (13 + 1) [⟨none, "root".toList, none, [1]⟩,
        ⟨some 0, "memory".toList, none, []⟩] 1
        ("type".toList ++ '=' :: ("ROM".toList ++ ' ' :: "size=0x20000".toList))
      = pairsLoop 13 (appendChild [⟨none, "root".toList, none, [1]⟩,
          ⟨some 0, "memory".toList, none, []⟩] 1 "type".toList
          (some "ROM".toList)).1 1 (lstripSpTab "size=0x20000".toList))
     ∧ (pairsLoop (13 + 1) [⟨none, "root".toList, none, [1]⟩,
        ⟨some 0, "memory".toList, none, []⟩] 1
        ("type".toList ++ '=' :: "ROM".toList)
      = .ok (appendChild [⟨none, "root".toList, none, [1]⟩,
          ⟨some 0, "memory".toList, none, []⟩] 1 "type".toList
          (some "ROM".toList)).1)
     ∧ (pairsLoop (13 + 1) [⟨none, "root".toList, none, [1]⟩,
        ⟨some 0, "memory".toList, none, []⟩] 1
        ("type".toList ++ '=' :: '"' :: ("a b".toList ++ '"' :: ' '
          :: "size=0x20000".toList))
      = pairsLoop 13 (appendChild [⟨none, "root".toList, none, [1]⟩,
          ⟨some 0, "memory".toList, none, []⟩] 1 "type".toList none).1 1
          (lstripSpTab "size=0x20000".toList))
     ∧ (pairsLoop (13 + 1) [⟨none, "root".toList, none, [1]⟩,
        ⟨some 0, "memory".toList, none, []⟩] 1
        ("type".toList ++ '=' :: '"' :: ("a b".toList ++ ['"']))
      = .ok (appendChild [⟨none, "root".toList, none, [1]⟩,
          ⟨some 0, "memory".toList, none, []⟩] 1 "type".toList none).1))
    ∧ elementsText (parse_bml ["memory type=ROM size=0x20000".toList])
        "memory".toList "type".toList 0 = some "ROM".toList
    ∧ elementsText (parse_bml ["memory type=ROM size=0x20000".toList])
        "memory".toList "size".toList 0 = some "0x20000".toList
    ∧ pathData (parse_bml ["memory label=\"a b\" size=80".toList])
        "memory".toList ["label".toList] = some none
    ∧ pathData (parse_bml ["memory label=\"a b\" size=80".toList])
        "memory".toList ["size".toList] = some (some "80".toList) :=
  ⟨pair_tokenize_appends 13 [⟨none, "root".toList, none, [1]⟩,
      ⟨some 0, "memory".toList, none, []⟩] 1 "type".toList "ROM".toList
      "a b".toList "size=0x20000".toList (by decide) (by decide)
      (by decide) (by decide) (by decide),
   by decide, by decide, by decide, by decide⟩

/-- C3 (amended): for every accepted input the returned root node is
named `"root"` (and exists); its data, however, is not absent on every
input — a block-continuation line that executes while the current node
is still the synthetic root (e.g. a first non-blank line starting with
`:`) stores that text as the root's data, as the counterexample shows. -/
theorem root_name_root (lines : List Str) (a : List Node)
    (h : parse_bml lines = .ok a) :
    (getN a 0).name = "root".toList ∧ 0 < a.length := by
  rw [parse_bml] at h
  cases hf : List.foldlM doLine initState lines with
  | error e => rw [hf] at h; exact absurd h (by simp)
  | ok st =>
    rw [hf] at h
    injection h with h
    subst h
    have hpres := foldl_name0 lines initState st hf (by decide)
    exact ⟨hpres.1.trans (by decide), hpres.2⟩

/-- Witness for C3: the single-line document `:x` parses, its root is
named `"root"` — and its data is `"x"`, so only the name half of the
original claim survives. -/
theorem root_name_root_witness :
    (getN [(⟨none, "root".toList, some "x".toList, []⟩ : Node)] 0).name
      = "root".toList
    ∧ 0 < [(⟨none, "root".toList, some "x".toList, []⟩ : Node)].length :=
  root_name_root [":x".toList]
    [⟨none, "root".toList, some "x".toList, []⟩] (by decide)

/-- C4 (amended): whenever `parse_bml` aborts with a syntax error, the
error's message is one of the three causes — "expected node name",
"expected pair key", "expected pair value" — and the error carries no
line text and no column (both are `None`, since it is built from the
message alone); in particular `memory size=` raises the pair-value
cause, not an error carrying the offending line and column. -/
theorem error_taxonomy (lines : List Str) (m : String) (t : Option Str)
    (o : Option Nat)
    (h : parse_bml lines = .error (PErr.synError m t o)) :
    (m = "expected node name" ∨ m = "expected pair key"
      ∨ m = "expected pair value")
    ∧ t = none ∧ o = none := by
  rw [parse_bml] at h
  cases hf : List.foldlM doLine initState lines with
  | error e =>
    rw [hf] at h
    injection h with h
    subst h
    exact errShape_foldl lines initState _ hf m t o rfl
  | ok st =>
    rw [hf] at h
    exact absurd h (by simp)

/-- Witness for C4: the document `memory size=` aborts with the
pair-value cause carrying no line text and no column. -/
theorem error_taxonomy_witness :
    parse_bml ["memory size=".toList]
      = .error (PErr.synError "expected pair value" none none)
    ∧ (("expected pair value" = "expected node name"
        ∨ "expected pair value" = "expected pair key"
        ∨ "expected pair value" = "expected pair value")
      ∧ (none : Option Str) = none ∧ (none : Option Nat) = none) :=
  ⟨by decide,
   error_taxonomy ["memory size=".toList] "expected pair value" none none
     (by decide)⟩
